import Mathlib

/-!
Shallow embedding of the C++17 container `Vector<T>` from `src/vector.h`.

The container state is `(sz, max_sz, values)` plus a buffer-generation tag
`buf` abstracting the address of the heap allocation (`0` encodes the null
buffer of a default-constructed vector; every `new value_type[...]` yields a
fresh generation, modelled by bumping the tag).  A storage slot holds
`none` while it is uninitialized garbage (the source allocates with
`new value_type[n]` and deliberately does not value-initialize) and
`some x` once written.  Fallible operations return the state reached at the
point of the `throw`, paired with the error raised, so that "no mutation
before raising" is a provable property of the translation rather than an
artifact of it.
-/

/-- Error kinds raised by the container; the source throws
`std::runtime_error` with three distinct messages. -/
inductive VecErr where
  | emptyContainer
  | outOfBounds
  | iteratorOutOfBounds
deriving DecidableEq

/-- A raw pointer value: `null`, or an offset into the allocation identified
by generation tag `buf`.  Two pointers are equal exactly when they are the
same offset into the same allocation, matching raw-pointer equality for
distinct live allocations. -/
inductive VPtr where
  | null : VPtr
  | mk (buf : Nat) (off : Nat) : VPtr
deriving DecidableEq

/-- Pointer arithmetic `p + k` (meaningful only for non-null `p`). -/
def VPtr.add : VPtr → Nat → VPtr
  | .null, _ => .null
  | .mk b o, k => .mk b (o + k)

/-- Pointer increment `++ptr` (meaningful only for non-null pointers;
incrementing the null pointer is undefined behaviour in the source and is
mapped to `null` here). -/
def VPtr.inc : VPtr → VPtr
  | .null => .null
  | .mk b o => .mk b (o + 1)

/-- State of a `Vector<T>` object: fields `sz`, `max_sz` and `values` of the
source, plus the allocation generation `buf`.  The defaults are the
in-class initializers `sz = 0`, `max_sz = 0`, `values = nullptr`. -/
structure Vec (T : Type) where
  sz : Nat := 0
  max_sz : Nat := 0
  buf : Nat := 0
  values : Nat → Option T := fun _ => none

namespace Vec

variable {T : Type}

/-- `Vector()` = default: `sz = 0`, `max_sz = 0`, `values = nullptr`. -/
def mkDefault (T : Type) : Vec T := {}

/-- `explicit Vector(const size_type n)`: size `0`, capacity `n`, a fresh
allocation of `n` uninitialized slots (`new value_type[n]` is non-null even
for `n = 0`, hence a nonzero generation tag). -/
def mkCap (T : Type) (n : Nat) : Vec T :=
  { sz := 0, max_sz := n, buf := 1, values := fun _ => none }

/-- `Vector(std::initializer_list)`: size = capacity = list length, slots
`[0, length)` hold the list elements in order. -/
def mkList (l : List T) : Vec T :=
  { sz := l.length, max_sz := l.length, buf := 1, values := fun i => l.get? i }

/-- Copy constructor: same `sz` and `max_sz` as the source, a fresh buffer of
`other.max_sz` slots of which only `[0, other.sz)` are copied. -/
def copy (v : Vec T) : Vec T :=
  { sz := v.sz, max_sz := v.max_sz, buf := v.buf + 1,
    values := fun i => if i < v.sz then v.values i else none }

/-- `operator=` by copy-and-swap: the parameter is taken by value (a copy of
the source); `*this` swaps its fields with that copy, so the post-state of
the target is exactly the copy of the source; the target's old fields die
with the temporary. -/
def assign (_target : Vec T) (source : Vec T) : Vec T :=
  source.copy

/-- `size()`. -/
def size (v : Vec T) : Nat := v.sz

/-- `empty()`. -/
def isEmpty (v : Vec T) : Bool := v.sz == 0

/-- `capacity()`. -/
def capacity (v : Vec T) : Nat := v.max_sz

/-- `clear()`: sets `sz` to 0, touching neither capacity nor the buffer. -/
def clear (v : Vec T) : Vec T := { v with sz := 0 }

/-- `reallocate(new_size)`: early-returns when `new_size < sz`; otherwise
allocates a fresh buffer of `new_size` slots, copies slots `[0, sz)` and
frees the old buffer (fresh generation, garbage above `sz`). -/
def reallocate (v : Vec T) (new_size : Nat) : Vec T :=
  if new_size < v.sz then v
  else { sz := v.sz, max_sz := new_size, buf := v.buf + 1,
         values := fun i => if i < v.sz then v.values i else none }

/-- `reserve(n)`: reallocate to exactly `n` slots when `n > max_sz`. -/
def reserve (v : Vec T) (n : Nat) : Vec T :=
  if n > v.max_sz then v.reallocate n else v

/-- `shrink_to_fit()`: reallocate down to `sz` slots when `sz < max_sz`. -/
def shrink_to_fit (v : Vec T) : Vec T :=
  if v.sz < v.max_sz then v.reallocate v.sz else v

/-- The grow-if-full step shared verbatim by `push_back` and `insert`:
`if (sz >= max_sz) reallocate(max_sz + max_sz / 2 + 1);`. -/
def grow (v : Vec T) : Vec T :=
  if v.sz ≥ v.max_sz then v.reallocate (v.max_sz + v.max_sz / 2 + 1) else v

/-- The statement `values[sz++] = el`. -/
def writeAtEnd (w : Vec T) (el : T) : Vec T :=
  { w with values := fun i => if i = w.sz then some el else w.values i,
           sz := w.sz + 1 }

/-- `push_back(el)`: grow by `max_sz + max_sz / 2 + 1` when `sz >= max_sz`,
then `values[sz++] = el`. -/
def push_back (v : Vec T) (el : T) : Vec T :=
  writeAtEnd v.grow el

/-- `pop_back()`: throws on `sz == 0` (state untouched at the throw point),
otherwise `--sz`. -/
def pop_back (v : Vec T) : Vec T × Option VecErr :=
  if v.sz = 0 then (v, some .emptyContainer)
  else ({ v with sz := v.sz - 1 }, none)

/-- `operator[](index)` (both overloads have the same check): throws when
`index >= sz`, otherwise yields the slot contents. -/
def subscript (v : Vec T) (index : Nat) : Except VecErr (Option T) :=
  if index ≥ v.sz then .error .outOfBounds
  else .ok (v.values index)

/-- `begin()`: `iterator{values}`, the null pointer for a never-allocated
vector and offset 0 of the current buffer otherwise. -/
def begin (v : Vec T) : VPtr :=
  if v.buf = 0 then .null else .mk v.buf 0

/-- `end()`: `iterator{values + sz}`. -/
def endp (v : Vec T) : VPtr :=
  if v.buf = 0 then .null else .mk v.buf v.sz

/-- The mutation part of `insert`: shift slots `(current, sz]` one up (the
loop runs from `sz` down to `current + 1`, so each slot receives the
pre-loop value of its left neighbour), write `val` at `current`,
increment `sz`. -/
def shiftUpWrite (w : Vec T) (current : Nat) (val : T) : Vec T :=
  { w with
      values := fun i =>
        if i = current then some val
        else if current < i ∧ i ≤ w.sz then w.values (i - 1)
        else w.values i,
      sz := w.sz + 1 }

/-- `insert(pos, val)` with `diff = pos - begin()` already computed (the
source's first line; the rest of the body only uses `diff`).  Returns the
state at the point of return or throw, the returned iterator
`iterator{values + current}` (built from the possibly reallocated buffer),
and the error if one was raised. -/
def insert (v : Vec T) (diff : Int) (val : T) : Vec T × Option VPtr × Option VecErr :=
  if diff < 0 ∨ diff.toNat > v.sz then (v, none, some .iteratorOutOfBounds)
  else
    (shiftUpWrite v.grow diff.toNat val, some (VPtr.mk v.grow.buf diff.toNat), none)

/-- The mutation part of `erase`: the shifting loop
`for (i = current; i < sz; ++i) values[i] = values[i+1]` (ascending, so each
slot receives the pre-loop value of its right neighbour) and `--sz`.  The
loop runs up to `i = sz - 1` and therefore also copies slot `sz` (garbage,
and out of the allocation when `sz == max_sz`) into slot `sz - 1`; the
translation keeps that read (`v.values v.sz` may be `none`). -/
def shiftDown (v : Vec T) (current : Nat) : Vec T :=
  { v with
      values := fun i =>
        if current ≤ i ∧ i < v.sz then v.values (i + 1) else v.values i,
      sz := v.sz - 1 }

/-- `erase(pos)` with `diff = pos - begin()` already computed: bounds check,
then the shifting loop and `--sz`. -/
def erase (v : Vec T) (diff : Int) : Vec T × Option VPtr × Option VecErr :=
  if diff < 0 ∨ diff.toNat ≥ v.sz then (v, none, some .iteratorOutOfBounds)
  else
    (v.shiftDown diff.toNat, some (VPtr.mk v.buf diff.toNat), none)

/-- The logical contents: slots `[0, sz)` in order (`some`-marked when
initialized). -/
def logical (v : Vec T) : List (Option T) :=
  (List.range v.sz).map v.values

/-- Well-formedness maintained by every operation: `sz ≤ max_sz`, and a
vector that has never allocated (`buf = 0`, i.e. `values == nullptr`) has
capacity 0. -/
def WF (v : Vec T) : Prop :=
  v.sz ≤ v.max_sz ∧ (v.buf = 0 → v.max_sz = 0)

/-- Fold of a sequence of `push_back` calls. -/
def pushAll (v : Vec T) (xs : List T) : Vec T :=
  xs.foldl push_back v

end Vec

/-- Offsets of the slots read by the element-shifting loop of
`Vector::erase` (`for (i = current; i < sz; ++i) values[i] = values[i+1]`
reads offset `i + 1` at each iteration): the offsets
`current + 1, ..., sz`. -/
def eraseReadOffsets (sz current : Nat) : List Nat :=
  (List.range' current (sz - current)).map (fun i => i + 1)

/-- `Vector::Iterator`: a raw cursor; default-constructed state is the null
pointer. -/
structure VIter where
  ptr : VPtr := .null
deriving DecidableEq

/-- `Vector::ConstIterator`: same shape, read-only access. -/
structure VConstIter where
  ptr : VPtr := .null
deriving DecidableEq

/-- `Iterator::operator++(int)`: declares `iterator old;` (default
constructed, NOT a copy of `*this`), pre-increments `*this`, returns `old`.
Result is `(advanced this, returned value)`. -/
def VIter.postInc (it : VIter) : VIter × VIter :=
  let old : VIter := {}
  (⟨it.ptr.inc⟩, old)

/-- `ConstIterator::operator++(int)`: same shape as the mutable one. -/
def VConstIter.postInc (it : VConstIter) : VConstIter × VConstIter :=
  let old : VConstIter := {}
  (⟨it.ptr.inc⟩, old)

/-- `Iterator::operator==(const const_iterator&)`: raw pointer equality. -/
def VIter.eqC (it : VIter) (other : VConstIter) : Bool :=
  it.ptr == other.ptr

/-- `ConstIterator::operator==(const const_iterator&)`. -/
def VConstIter.eqC (it : VConstIter) (other : VConstIter) : Bool :=
  it.ptr == other.ptr

/-- Implicit widening conversion `Iterator -> ConstIterator`. -/
def VIter.toConst (it : VIter) : VConstIter :=
  ⟨it.ptr⟩

/-! ## Basic lemmas about the embedding -/

namespace Vec

variable {T : Type}

lemma range_map_ext (f g : Nat → Option T) (n : Nat) (h : ∀ i, i < n → f i = g i) :
    (List.range n).map f = (List.range n).map g := by
  induction n with
  | zero => rfl
  | succ m ih =>
    rw [List.range_succ, List.map_append, List.map_append,
        ih (fun i hi => h i (Nat.lt_succ_of_lt hi))]
    simp [h m (Nat.lt_succ_self m)]

lemma logical_ext {v w : Vec T} (hsz : w.sz = v.sz)
    (h : ∀ i, i < v.sz → w.values i = v.values i) : w.logical = v.logical := by
  unfold logical
  rw [hsz]
  exact range_map_ext _ _ _ h

lemma reallocate_sz (v : Vec T) (n : Nat) : (v.reallocate n).sz = v.sz := by
  unfold reallocate; split <;> rfl

lemma reallocate_of_le (v : Vec T) (n : Nat) (h : v.sz ≤ n) :
    (v.reallocate n).max_sz = n ∧ (v.reallocate n).buf = v.buf + 1 ∧
    ∀ i, i < v.sz → (v.reallocate n).values i = v.values i := by
  unfold reallocate
  rw [if_neg (Nat.not_lt.mpr h)]
  exact ⟨rfl, rfl, fun i hi => if_pos hi⟩

lemma reallocate_values_lt (v : Vec T) (n : Nat) (i : Nat) (hi : i < v.sz) :
    (v.reallocate n).values i = v.values i := by
  unfold reallocate; split
  · rfl
  · exact if_pos hi

lemma reallocate_logical (v : Vec T) (n : Nat) : (v.reallocate n).logical = v.logical :=
  logical_ext (reallocate_sz v n) (reallocate_values_lt v n)

lemma grow_sz (v : Vec T) : v.grow.sz = v.sz := by
  unfold grow; split
  · exact reallocate_sz v _
  · rfl

lemma grow_values_lt (v : Vec T) (i : Nat) (hi : i < v.sz) :
    v.grow.values i = v.values i := by
  unfold grow; split
  · exact reallocate_values_lt v _ i hi
  · rfl

lemma grow_logical (v : Vec T) : v.grow.logical = v.logical :=
  logical_ext (grow_sz v) (grow_values_lt v)

lemma grow_max_of_eq (v : Vec T) (h : v.sz = v.max_sz) :
    v.grow.max_sz = v.max_sz + v.max_sz / 2 + 1 := by
  unfold grow
  rw [if_pos (Nat.le_of_eq h.symm)]
  exact (reallocate_of_le v _ (by omega)).1

lemma grow_of_lt (v : Vec T) (h : v.sz < v.max_sz) : v.grow = v := by
  unfold grow
  rw [if_neg (Nat.not_le.mpr h)]

lemma grow_sz_lt_max (v : Vec T) (h : v.sz ≤ v.max_sz) : v.grow.sz < v.grow.max_sz := by
  unfold grow; split
  · rename_i hge
    have hsz : v.sz = v.max_sz := Nat.le_antisymm h hge
    rw [reallocate_sz, (reallocate_of_le v _ (by omega)).1]
    omega
  · rename_i hlt
    exact Nat.not_le.mp hlt

lemma grow_buf_ne_zero (v : Vec T) (hwf : v.WF) (h : v.sz ≤ v.max_sz) :
    v.grow.buf ≠ 0 := by
  unfold grow; split
  · rename_i hge
    have hsz : v.sz = v.max_sz := Nat.le_antisymm h hge
    rw [(reallocate_of_le v _ (by omega)).2.1]
    omega
  · rename_i hlt
    intro hb
    have := hwf.2 hb
    omega

lemma grow_WF (v : Vec T) (hwf : v.WF) : v.grow.WF :=
  ⟨Nat.le_of_lt (grow_sz_lt_max v hwf.1),
   fun hb => absurd hb (grow_buf_ne_zero v hwf hwf.1)⟩

lemma push_back_sz (v : Vec T) (el : T) : (v.push_back el).sz = v.sz + 1 := by
  unfold push_back writeAtEnd
  simp [grow_sz]

lemma push_back_max_of_eq (v : Vec T) (el : T) (h : v.sz = v.max_sz) :
    (v.push_back el).max_sz = v.max_sz + v.max_sz / 2 + 1 :=
  grow_max_of_eq v h

lemma push_back_max_of_lt (v : Vec T) (el : T) (h : v.sz < v.max_sz) :
    (v.push_back el).max_sz = v.max_sz := by
  unfold push_back writeAtEnd
  rw [grow_of_lt v h]

lemma push_back_buf_of_lt (v : Vec T) (el : T) (h : v.sz < v.max_sz) :
    (v.push_back el).buf = v.buf := by
  unfold push_back writeAtEnd
  rw [grow_of_lt v h]

lemma writeAtEnd_logical (w : Vec T) (el : T) :
    (w.writeAtEnd el).logical = w.logical ++ [some el] := by
  unfold writeAtEnd logical
  rw [List.range_succ, List.map_append]
  congr 1
  · exact range_map_ext _ _ _ (fun i hi => if_neg (Nat.ne_of_lt hi))
  · simp

lemma push_back_logical (v : Vec T) (el : T) :
    (v.push_back el).logical = v.logical ++ [some el] := by
  unfold push_back
  rw [writeAtEnd_logical, grow_logical]

lemma push_back_WF (v : Vec T) (el : T) (h : v.WF) : (v.push_back el).WF := by
  have hlt := grow_sz_lt_max v h.1
  have hbuf := grow_buf_ne_zero v h h.1
  unfold push_back writeAtEnd
  exact ⟨by simpa using hlt, fun hb => absurd hb hbuf⟩

end Vec

namespace Vec

lemma insert_eq_of_le (v : Vec T) (k : Nat) (val : T) (h : k ≤ v.sz) :
    v.insert ((k : Int)) val =
      (shiftUpWrite v.grow k val, some (VPtr.mk v.grow.buf k), none) := by
  unfold insert
  rw [if_neg]
  · rfl
  · intro hc
    rcases hc with hc | hc <;> omega

lemma erase_eq_of_lt (v : Vec T) (k : Nat) (h : k < v.sz) :
    v.erase ((k : Int)) = (v.shiftDown k, some (VPtr.mk v.buf k), none) := by
  unfold erase
  rw [if_neg]
  · rfl
  · intro hc
    rcases hc with hc | hc <;> omega

end Vec

/-! ## Claim theorems -/

/-- C2: for every container state with `size == capacity`, `push_back` (and
likewise `insert` at a valid offset) grows the capacity to exactly
`old + old/2 + 1` — in particular a default-constructed container of
capacity 0 grows to capacity 1 on the first push — and when
`size < capacity` both leave the capacity unchanged. -/
theorem C2_growth_policy {T : Type} (v : Vec T) (el val : T) (k : Nat) (hk : k ≤ v.sz) :
    (v.sz = v.max_sz →
      (v.push_back el).max_sz = v.max_sz + v.max_sz / 2 + 1 ∧
      ((v.insert ((k : Int)) val).1).max_sz = v.max_sz + v.max_sz / 2 + 1) ∧
    (v.sz < v.max_sz →
      (v.push_back el).max_sz = v.max_sz ∧
      ((v.insert ((k : Int)) val).1).max_sz = v.max_sz) ∧
    ((Vec.mkDefault T).push_back el).max_sz = 1 := by
  refine ⟨fun h => ⟨Vec.push_back_max_of_eq v el h, ?_⟩,
          fun h => ⟨Vec.push_back_max_of_lt v el h, ?_⟩, ?_⟩
  · rw [Vec.insert_eq_of_le v k val hk]
    exact Vec.grow_max_of_eq v h
  · rw [Vec.insert_eq_of_le v k val hk, Vec.grow_of_lt v h]
    rfl
  · rw [Vec.push_back_max_of_eq (Vec.mkDefault T) el rfl]
    simp [Vec.mkDefault]

/-- C2 witness: a full container of size 2 = capacity 2 grows to capacity
`2 + 2/2 + 1 = 4` on both `push_back` and `insert`. -/
theorem C2_growth_policy_witness :
    ((Vec.mkList [(1:Nat), 2]).push_back 3).max_sz = 4 ∧
    (((Vec.mkList [(1:Nat), 2]).insert (((1 : Nat) : Int)) 9).1).max_sz = 4 :=
  (C2_growth_policy (Vec.mkList [(1:Nat), 2]) 3 9 1 (by decide)).1 rfl

/-- C5: `pop_back` raises `EmptyContainerError` exactly when `size == 0`
(otherwise it only decrements `sz`, leaving capacity, buffer and slots
untouched), and `operator[]` raises `OutOfBoundsError` exactly when
`index ≥ size`; in particular indexing at `size()` always raises. -/
theorem C5_error_conditions {T : Type} (v : Vec T) (i : Nat) :
    ((v.pop_back).2 = some VecErr.emptyContainer ↔ v.sz = 0) ∧
    (v.sz ≠ 0 → (v.pop_back).1.sz = v.sz - 1 ∧ (v.pop_back).1.max_sz = v.max_sz ∧
      (v.pop_back).1.buf = v.buf ∧ (v.pop_back).1.values = v.values) ∧
    (v.subscript i = .error VecErr.outOfBounds ↔ v.sz ≤ i) ∧
    v.subscript v.sz = .error VecErr.outOfBounds := by
  refine ⟨⟨fun h => ?_, fun h => by simp [Vec.pop_back, h]⟩,
          fun h => by simp [Vec.pop_back, h], ⟨fun h => ?_, fun h => ?_⟩, ?_⟩
  · by_contra hne
    simp [Vec.pop_back, hne] at h
  · by_contra hne
    simp [Vec.subscript, hne] at h
  · simp [Vec.subscript, ge_iff_le, h]
  · simp [Vec.subscript]

/-- C5 witness: popping `[3]` gives size 0; indexing `[3]` at 1 (= size)
raises `OutOfBoundsError`; popping the empty container raises
`EmptyContainerError`. -/
theorem C5_error_conditions_witness :
    ((Vec.mkList [(3:Nat)]).pop_back).1.sz = 0 ∧
    (Vec.mkList [(3:Nat)]).subscript 1 = .error VecErr.outOfBounds ∧
    ((Vec.mkDefault Nat).pop_back).2 = some VecErr.emptyContainer :=
  ⟨((C5_error_conditions (Vec.mkList [(3:Nat)]) 1).2.1 (by decide)).1,
   (C5_error_conditions (Vec.mkList [(3:Nat)]) 1).2.2.1.mpr (by decide),
   (C5_error_conditions (Vec.mkDefault Nat) 0).1.mpr rfl⟩

/-- C6: whenever `pop_back`, `insert` or `erase` raises an error, the
container state returned at the throw point is exactly the state before the
call (the bounds check precedes every mutation); indexed access is embedded
as a pure read and cannot mutate at all. -/
theorem C6_no_mutation_on_error {T : Type} (v : Vec T) (d : Int) (val : T) :
    ((v.pop_back).2.isSome → (v.pop_back).1 = v) ∧
    ((v.insert d val).2.2.isSome → (v.insert d val).1 = v) ∧
    ((v.erase d).2.2.isSome → (v.erase d).1 = v) := by
  refine ⟨fun h => ?_, fun h => ?_, fun h => ?_⟩
  · by_cases h0 : v.sz = 0
    · simp [Vec.pop_back, h0]
    · simp [Vec.pop_back, h0] at h
  · by_cases hc : d < 0 ∨ d.toNat > v.sz
    · unfold Vec.insert
      rw [if_pos hc]
    · unfold Vec.insert at h
      rw [if_neg hc] at h
      simp at h
  · by_cases hc : d < 0 ∨ d.toNat ≥ v.sz
    · unfold Vec.erase
      rw [if_pos hc]
    · unfold Vec.erase at h
      rw [if_neg hc] at h
      simp at h

/-- C6 witness: a rejected `erase` at offset 5 of `[1, 2]`, a rejected
`insert` at offset −1, and a rejected `pop_back` on the empty container all
return the input state unchanged. -/
theorem C6_no_mutation_on_error_witness :
    ((Vec.mkList [(1:Nat), 2]).erase 5).1 = Vec.mkList [(1:Nat), 2] ∧
    ((Vec.mkList [(1:Nat), 2]).insert (-1) 7).1 = Vec.mkList [(1:Nat), 2] ∧
    ((Vec.mkDefault Nat).pop_back).1 = Vec.mkDefault Nat :=
  ⟨(C6_no_mutation_on_error (Vec.mkList [(1:Nat), 2]) 5 7).2.2 (by decide),
   (C6_no_mutation_on_error (Vec.mkList [(1:Nat), 2]) (-1) 7).2.1 (by decide),
   (C6_no_mutation_on_error (Vec.mkDefault Nat) 0 0).1 (by decide)⟩

namespace Vec

lemma mkDefault_WF : (mkDefault T).WF :=
  ⟨Nat.le_refl 0, fun _ => rfl⟩

lemma pushAll_cons (v : Vec T) (x : T) (xs : List T) :
    v.pushAll (x :: xs) = (v.push_back x).pushAll xs := rfl

lemma pushAll_spec (xs : List T) : ∀ v : Vec T, v.WF →
    (v.pushAll xs).WF ∧ (v.pushAll xs).sz = v.sz + xs.length ∧
    (v.pushAll xs).logical = v.logical ++ xs.map some := by
  induction xs with
  | nil =>
    intro v hv
    exact ⟨hv, rfl, by simp [pushAll]⟩
  | cons x xs ih =>
    intro v hv
    obtain ⟨hwf, hsz, hlog⟩ := ih (v.push_back x) (push_back_WF v x hv)
    rw [pushAll_cons]
    refine ⟨hwf, ?_, ?_⟩
    · rw [hsz, push_back_sz]
      simp
      omega
    · rw [hlog, push_back_logical]
      simp

lemma values_of_logical {v : Vec T} {i : Nat} (h : i < v.sz) :
    v.logical.get? i = some (v.values i) := by
  unfold logical
  rw [List.get?_map, List.get?_range h]
  rfl

end Vec

/-- C1: starting from a default-constructed container, any sequence of
`push_back` calls yields `size()` equal to the number of calls, and indexed
access at each `i < size` returns the `i`-th appended value. -/
theorem C1_push_back_append_order {T : Type} (xs : List T) (i : Nat) (h : i < xs.length) :
    ((Vec.mkDefault T).pushAll xs).sz = xs.length ∧
    ((Vec.mkDefault T).pushAll xs).subscript i = .ok (some (xs.get ⟨i, h⟩)) := by
  obtain ⟨hwf, hsz, hlog⟩ := Vec.pushAll_spec xs (Vec.mkDefault T) Vec.mkDefault_WF
  rw [show (Vec.mkDefault T).logical = [] from rfl, List.nil_append] at hlog
  have h0 : (Vec.mkDefault T).sz = 0 := rfl
  have hsz' : ((Vec.mkDefault T).pushAll xs).sz = xs.length := by omega
  have hi : i < ((Vec.mkDefault T).pushAll xs).sz := by omega
  refine ⟨hsz', ?_⟩
  have hv := Vec.values_of_logical hi
  rw [hlog, List.get?_map, List.get?_eq_get h] at hv
  unfold Vec.subscript
  rw [if_neg (by omega)]
  rw [← Option.some_inj.mp hv]

/-- C1 witness: pushing `4, 5, 6` yields size 3 and the third slot reads
back `6`. -/
theorem C1_push_back_append_order_witness :
    ((Vec.mkDefault Nat).pushAll [4, 5, 6]).sz = 3 ∧
    ((Vec.mkDefault Nat).pushAll [4, 5, 6]).subscript 2 = .ok (some 6) :=
  C1_push_back_append_order [4, 5, 6] 2 (by decide)

namespace Vec

lemma mkCap_WF (n : Nat) : (mkCap T n).WF :=
  ⟨Nat.zero_le n, fun h => by simp [mkCap] at h⟩

lemma mkList_WF (l : List T) : (mkList l).WF :=
  ⟨Nat.le_refl _, fun h => by simp [mkList] at h⟩

lemma copy_WF (v : Vec T) (h : v.WF) : v.copy.WF :=
  ⟨h.1, fun hb => by simp [copy] at hb⟩

lemma pop_back_WF (v : Vec T) (h : v.WF) : (v.pop_back).1.WF := by
  unfold pop_back
  split
  · exact h
  · exact ⟨Nat.le_trans (Nat.sub_le _ _) h.1, h.2⟩

lemma clear_WF (v : Vec T) (h : v.WF) : v.clear.WF :=
  ⟨Nat.zero_le _, h.2⟩

lemma reserve_WF (v : Vec T) (n : Nat) (h : v.WF) : (v.reserve n).WF := by
  obtain ⟨h1, h2⟩ := h
  unfold reserve
  split
  · rename_i hgt
    obtain ⟨hmax, hbuf, -⟩ := reallocate_of_le v n (by omega)
    refine ⟨?_, fun hb => ?_⟩
    · rw [reallocate_sz, hmax]
      omega
    · rw [hbuf] at hb
      omega
  · exact ⟨h1, h2⟩

lemma shrink_to_fit_WF (v : Vec T) (h : v.WF) : v.shrink_to_fit.WF := by
  unfold shrink_to_fit
  split
  · obtain ⟨hmax, hbuf, -⟩ := reallocate_of_le v v.sz (Nat.le_refl _)
    refine ⟨?_, fun hb => ?_⟩
    · rw [reallocate_sz, hmax]
    · rw [hbuf] at hb
      omega
  · exact h

lemma insert_WF (v : Vec T) (d : Int) (val : T) (h : v.WF) : ((v.insert d val).1).WF := by
  unfold insert
  split
  · exact h
  · have h1 := grow_sz_lt_max v h.1
    have h2 := grow_buf_ne_zero v h h.1
    refine ⟨?_, fun hb => ?_⟩
    · show v.grow.sz + 1 ≤ v.grow.max_sz
      omega
    · exact absurd hb h2

lemma erase_WF (v : Vec T) (d : Int) (h : v.WF) : ((v.erase d).1).WF := by
  unfold erase
  split
  · exact h
  · refine ⟨?_, h.2⟩
    show v.sz - 1 ≤ v.max_sz
    have := h.1
    omega

end Vec

/-- C3: the invariant `size ≤ capacity` (together with "a never-allocated
buffer has capacity 0", the full well-formedness predicate `Vec.WF`) holds
of every constructor's result and is preserved by every operation:
`push_back`, `pop_back`, `insert`, `erase`, `clear`, `reserve`,
`shrink_to_fit`, copy construction and copy assignment; in particular
`capacity() ≥ size()` in every reachable state. -/
theorem C3_size_le_capacity_invariant {T : Type} (v w : Vec T) (hv : v.WF) (hw : w.WF)
    (el val : T) (n : Nat) (d : Int) (l : List T) :
    (Vec.mkDefault T).WF ∧ (Vec.mkCap T n).WF ∧ (Vec.mkList l).WF ∧
    v.copy.WF ∧ (w.assign v).WF ∧
    (v.push_back el).WF ∧ (v.pop_back).1.WF ∧
    ((v.insert d val).1).WF ∧ ((v.erase d).1).WF ∧
    v.clear.WF ∧ (v.reserve n).WF ∧ v.shrink_to_fit.WF ∧
    v.sz ≤ v.max_sz :=
  ⟨Vec.mkDefault_WF, Vec.mkCap_WF n, Vec.mkList_WF l,
   Vec.copy_WF v hv, Vec.copy_WF v hv,
   Vec.push_back_WF v el hv, Vec.pop_back_WF v hv,
   Vec.insert_WF v d val hv, Vec.erase_WF v d hv,
   Vec.clear_WF v hv, Vec.reserve_WF v n hv, Vec.shrink_to_fit_WF v hv,
   hv.1⟩

/-- C3 witness at a concrete well-formed container. -/
theorem C3_size_le_capacity_invariant_witness :
    ((Vec.mkList [(1:Nat), 2]).push_back 3).WF ∧
    (((Vec.mkList [(1:Nat), 2]).insert 1 9).1).WF ∧
    (Vec.mkList [(1:Nat), 2]).shrink_to_fit.WF :=
  ⟨(C3_size_le_capacity_invariant (Vec.mkList [(1:Nat), 2]) (Vec.mkDefault Nat)
      (by constructor <;> simp [Vec.mkList]) ⟨Nat.le_refl 0, fun _ => rfl⟩ 3 9 0 1 []).2.2.2.2.2.1,
   (C3_size_le_capacity_invariant (Vec.mkList [(1:Nat), 2]) (Vec.mkDefault Nat)
      (by constructor <;> simp [Vec.mkList]) ⟨Nat.le_refl 0, fun _ => rfl⟩ 3 9 0 1 []).2.2.2.2.2.2.2.1,
   (C3_size_le_capacity_invariant (Vec.mkList [(1:Nat), 2]) (Vec.mkDefault Nat)
      (by constructor <;> simp [Vec.mkList]) ⟨Nat.le_refl 0, fun _ => rfl⟩ 3 9 0 1
      []).2.2.2.2.2.2.2.2.2.2.2.1⟩

/-- C7: a valid `insert` at offset `k` succeeds and its returned iterator
`iterator{values + current}` equals `begin() + k` of the post-insert state
on every code path (the returned pointer is built from the possibly
reallocated buffer), and it addresses the newly inserted element. -/
theorem C7_insert_result_iterator {T : Type} (v : Vec T) (k : Nat) (val : T)
    (hwf : v.WF) (hk : k ≤ v.sz) :
    (v.insert (k : Int) val).2.2 = none ∧
    (v.insert (k : Int) val).2.1 = some ((((v.insert (k : Int) val).1).begin).add k) ∧
    ((v.insert (k : Int) val).1).values k = some val ∧
    ((v.insert (k : Int) val).1).sz = v.sz + 1 := by
  rw [Vec.insert_eq_of_le v k val hk]
  have hbuf : (Vec.shiftUpWrite v.grow k val).buf ≠ 0 := Vec.grow_buf_ne_zero v hwf hwf.1
  refine ⟨rfl, ?_, ?_, ?_⟩
  · show some (VPtr.mk v.grow.buf k) = some ((Vec.shiftUpWrite v.grow k val).begin.add k)
    unfold Vec.begin
    rw [if_neg hbuf]
    show some (VPtr.mk v.grow.buf k) = some (VPtr.mk (Vec.shiftUpWrite v.grow k val).buf (0 + k))
    rw [Nat.zero_add]
    rfl
  · simp [Vec.shiftUpWrite]
  · show v.grow.sz + 1 = v.sz + 1
    rw [Vec.grow_sz]

/-- C7 witness: inserting `9` at offset 1 of the full container `[5, 6]`
(which forces a reallocation) returns `begin() + 1` of the new state, whose
slot 1 holds `9`. -/
theorem C7_insert_result_iterator_witness :
    ((Vec.mkList [(5:Nat), 6]).insert ((1:Nat) : Int) 9).2.1 =
      some (((((Vec.mkList [(5:Nat), 6]).insert ((1:Nat) : Int) 9).1).begin).add 1) ∧
    ((((Vec.mkList [(5:Nat), 6]).insert ((1:Nat) : Int) 9).1).values 1 = some 9) :=
  ⟨(C7_insert_result_iterator (Vec.mkList [(5:Nat), 6]) 1 9 (by constructor <;> simp [Vec.mkList])
      (by decide)).2.1,
   (C7_insert_result_iterator (Vec.mkList [(5:Nat), 6]) 1 9 (by constructor <;> simp [Vec.mkList])
      (by decide)).2.2.1⟩

/-- C8: erasing the element at a valid offset `k` and then inserting the
erased value back at the same offset restores the original size and the
original logical element sequence. -/
theorem C8_erase_insert_roundtrip {T : Type} (v : Vec T) (k : Nat) (x : T)
    (hwf : v.WF) (hk : k < v.sz) (hx : v.values k = some x) :
    (((v.erase (k : Int)).1).insert (k : Int) x).1.sz = v.sz ∧
    (((v.erase (k : Int)).1).insert (k : Int) x).1.logical = v.logical := by
  rw [Vec.erase_eq_of_lt v k hk]
  have hke : k ≤ (v.shiftDown k).sz := by
    show k ≤ v.sz - 1
    omega
  rw [Vec.insert_eq_of_le _ k x hke]
  have hlt : (v.shiftDown k).sz < (v.shiftDown k).max_sz := by
    show v.sz - 1 < v.max_sz
    have := hwf.1
    omega
  rw [Vec.grow_of_lt _ hlt]
  constructor
  · show (v.sz - 1) + 1 = v.sz
    omega
  · refine Vec.logical_ext ?_ ?_
    · show (v.sz - 1) + 1 = v.sz
      omega
    · intro i hi
      by_cases hik : i = k
      · subst hik
        simpa [Vec.shiftUpWrite] using hx.symm
      · by_cases hki : k < i
        · have h1 : k < i ∧ i ≤ (v.shiftDown k).sz := ⟨hki, by show i ≤ v.sz - 1; omega⟩
          show (if i = k then some x
                else if k < i ∧ i ≤ (v.shiftDown k).sz then (v.shiftDown k).values (i - 1)
                else (v.shiftDown k).values i) = v.values i
          rw [if_neg hik, if_pos h1]
          show (if k ≤ i - 1 ∧ i - 1 < v.sz then v.values (i - 1 + 1) else v.values (i - 1)) =
            v.values i
          rw [if_pos ⟨by omega, by omega⟩]
          congr 1
          omega
        · show (if i = k then some x
                else if k < i ∧ i ≤ (v.shiftDown k).sz then (v.shiftDown k).values (i - 1)
                else (v.shiftDown k).values i) = v.values i
          rw [if_neg hik, if_neg (fun hc => hki hc.1)]
          show (if k ≤ i ∧ i < v.sz then v.values (i + 1) else v.values i) = v.values i
          rw [if_neg (fun hc => hki (by omega))]

/-- C8 witness: erasing offset 1 of `[4, 5, 6]` and re-inserting `5` there
restores `[4, 5, 6]`. -/
theorem C8_erase_insert_roundtrip_witness :
    ((((Vec.mkList [(4:Nat), 5, 6]).erase ((1:Nat) : Int)).1).insert ((1:Nat) : Int) 5).1.sz = 3 ∧
    ((((Vec.mkList [(4:Nat), 5, 6]).erase ((1:Nat) : Int)).1).insert ((1:Nat) : Int) 5).1.logical =
      (Vec.mkList [(4:Nat), 5, 6]).logical :=
  ⟨(C8_erase_insert_roundtrip (Vec.mkList [(4:Nat), 5, 6]) 1 5
      (by constructor <;> simp [Vec.mkList]) (by decide) rfl).1,
   (C8_erase_insert_roundtrip (Vec.mkList [(4:Nat), 5, 6]) 1 5
      (by constructor <;> simp [Vec.mkList]) (by decide) rfl).2⟩

/-- C9: the copy constructor reproduces the source's size, elements and
capacity (the capacity at copy time, not the size), into a freshly
allocated buffer distinct from the source's — so no later mutation of the
source's buffer can be observed through the copy; `operator=` (copy and
swap) leaves the target equal to such a copy of the source with the same
freshness, giving assignment the same deep-copy independence. -/
theorem C9_copy_is_deep {T : Type} (v w : Vec T) :
    v.copy.sz = v.sz ∧ v.copy.max_sz = v.max_sz ∧ v.copy.logical = v.logical ∧
    v.copy.buf ≠ v.buf ∧
    (w.assign v).sz = v.sz ∧ (w.assign v).max_sz = v.max_sz ∧
    (w.assign v).logical = v.logical ∧ (w.assign v).buf ≠ v.buf := by
  have hlog : v.copy.logical = v.logical :=
    Vec.logical_ext rfl (fun i hi => if_pos hi)
  have hbuf : v.copy.buf ≠ v.buf := Nat.succ_ne_self v.buf
  exact ⟨rfl, rfl, hlog, hbuf, rfl, rfl, hlog, hbuf⟩

/-- C9 witness: copying `[1, 2]` after a `push_back` left capacity 4 with
size 3 — the copy keeps capacity 4 (not 3), identical contents, and a
distinct buffer. -/
theorem C9_copy_is_deep_witness :
    ((Vec.mkList [(1:Nat), 2]).push_back 3).copy.sz = 3 ∧
    ((Vec.mkList [(1:Nat), 2]).push_back 3).copy.max_sz = 4 ∧
    ((Vec.mkList [(1:Nat), 2]).push_back 3).copy.logical =
      ((Vec.mkList [(1:Nat), 2]).push_back 3).logical ∧
    ((Vec.mkList [(1:Nat), 2]).push_back 3).copy.buf ≠
      ((Vec.mkList [(1:Nat), 2]).push_back 3).buf :=
  ⟨(C9_copy_is_deep ((Vec.mkList [(1:Nat), 2]).push_back 3) (Vec.mkDefault Nat)).1,
   (C9_copy_is_deep ((Vec.mkList [(1:Nat), 2]).push_back 3) (Vec.mkDefault Nat)).2.1,
   (C9_copy_is_deep ((Vec.mkList [(1:Nat), 2]).push_back 3) (Vec.mkDefault Nat)).2.2.1,
   (C9_copy_is_deep ((Vec.mkList [(1:Nat), 2]).push_back 3) (Vec.mkDefault Nat)).2.2.2.1⟩

/-- C10: `operator++(int)` of both iterator types advances the cursor by
one position but returns the default-constructed (null) iterator — `old` is
declared without copying `*this` — so for any iterator actually pointing
into a buffer the returned value does not compare equal to the old
position. -/
theorem C10_post_increment_returns_default (it : VIter) (cit : VConstIter)
    (b o b2 o2 : Nat) (hit : it.ptr = VPtr.mk b o) (hcit : cit.ptr = VPtr.mk b2 o2) :
    (it.postInc).1.ptr = VPtr.mk b (o + 1) ∧
    (it.postInc).2 = ({} : VIter) ∧
    VIter.eqC (it.postInc).2 ⟨it.ptr⟩ = false ∧
    (cit.postInc).1.ptr = VPtr.mk b2 (o2 + 1) ∧
    (cit.postInc).2 = ({} : VConstIter) ∧
    VConstIter.eqC (cit.postInc).2 ⟨cit.ptr⟩ = false := by
  refine ⟨?_, rfl, ?_, ?_, rfl, ?_⟩
  · simp [VIter.postInc, VPtr.inc, hit]
  · simp [VIter.eqC, VIter.postInc, hit]
  · simp [VConstIter.postInc, VPtr.inc, hcit]
  · simp [VConstIter.eqC, VConstIter.postInc, hcit]

/-- C10 witness at concrete cursors into buffer 1. -/
theorem C10_post_increment_returns_default_witness :
    ((⟨VPtr.mk 1 0⟩ : VIter).postInc).1.ptr = VPtr.mk 1 1 ∧
    ((⟨VPtr.mk 1 0⟩ : VIter).postInc).2 = ({} : VIter) ∧
    VIter.eqC ((⟨VPtr.mk 1 0⟩ : VIter).postInc).2 ⟨VPtr.mk 1 0⟩ = false :=
  ⟨(C10_post_increment_returns_default ⟨VPtr.mk 1 0⟩ ⟨VPtr.mk 1 2⟩ 1 0 1 2 rfl rfl).1,
   (C10_post_increment_returns_default ⟨VPtr.mk 1 0⟩ ⟨VPtr.mk 1 2⟩ 1 0 1 2 rfl rfl).2.1,
   (C10_post_increment_returns_default ⟨VPtr.mk 1 0⟩ ⟨VPtr.mk 1 2⟩ 1 0 1 2 rfl rfl).2.2.1⟩

/-- C4 is refuted by the code (code bug): at the failing input — a full
container of size 1 = capacity 1, `erase` at offset 0 — the shifting loop
of `Vector::erase` reads slot offset 1, which is ≥ the size (and here also
≥ the capacity, i.e. past the end of the allocation), contradicting the
spec's rule that slots `[size, capacity)` are never read. -/
theorem C4_erase_reads_slot_at_size :
    (Vec.mkList [(1:Nat)]).sz = 1 ∧ (Vec.mkList [(1:Nat)]).max_sz = 1 ∧
    eraseReadOffsets (Vec.mkList [(1:Nat)]).sz 0 = [1] ∧
    ∃ j ∈ eraseReadOffsets (Vec.mkList [(1:Nat)]).sz 0, (Vec.mkList [(1:Nat)]).sz ≤ j :=
  ⟨rfl, rfl, rfl, 1, by decide, by decide⟩
